import Mathlib

/-!
Shallow embedding of the indicator-calculation and scoring engine of
`scripts/calculate_signals.py` (class `TechnicalIndicators`).

Python floats are modelled as rationals (`ℚ`); Python `None` entries in a
series become `Option ℚ`.  `math.sqrt` (used only by the Bollinger band
computation) is not rational-valued, so it is passed in as an explicit
function parameter `sqrtF : ℚ → ℚ`; theorems that need a concrete fact
about it (such as `sqrtF 0 = 0`, true of `math.sqrt`) take it as a
hypothesis.  Python truthiness tests (`if x:` on a float-or-None) are
translated literally: `None` and `0.0` are falsy, everything else truthy.
-/

namespace TechnicalIndicators

/-- A candle, per the input data model `{date, open, high, low, close, volume}`.
Only `high`, `low`, `close` and `volume` are read by the engine. -/
structure Candle where
  high : ℚ
  low : ℚ
  close : ℚ
  volume : ℚ
  deriving DecidableEq, Repr

/-- `sma(prices, period)`: `None` for `i < period - 1`, else the mean of the
trailing `period` values ending at `i` (`prices[i-period+1 : i+1]`). -/
def sma (prices : List ℚ) (period : ℕ) : List (Option ℚ) :=
  (List.range prices.length).map (fun i =>
    if i < period - 1 then none
    else some (((prices.drop (i + 1 - period)).take period).sum / (period : ℚ)))

/-- The EMA recurrence `ema[i] = (price[i] - ema[i-1]) * multiplier + ema[i-1]`,
started from `prev`, over the remaining prices. -/
def emaFrom (multiplier : ℚ) (prev : ℚ) : List ℚ → List ℚ
  | [] => []
  | p :: ps =>
    let e := (p - prev) * multiplier + prev
    e :: emaFrom multiplier e ps

/-- `ema(prices, period)`: all-`None` if the input is shorter than `period`;
otherwise `None` up to index `period - 2`, the SMA of the first `period`
prices at index `period - 1`, then the EMA recurrence. -/
def ema (prices : List ℚ) (period : ℕ) : List (Option ℚ) :=
  if prices.length < period then List.replicate prices.length none
  else
    let multiplier : ℚ := 2 / ((period : ℚ) + 1)
    let smaFirst := (prices.take period).sum / (period : ℚ)
    List.replicate (period - 1) none ++
      some smaFirst :: (emaFrom multiplier smaFirst (prices.drop period)).map some

/-- `wilder_smooth`'s loop: `i` is the current index, `total` the running sum
of the first `min i period` inputs, `prev` the previously emitted value. -/
def wilderAux (period : ℕ) : ℕ → ℚ → ℚ → List ℚ → List ℚ
  | _, _, _, [] => []
  | i, total, prev, v :: rest =>
    if i < period then
      let t := total + v
      let x := t / ((i : ℚ) + 1)
      x :: wilderAux period (i + 1) t x rest
    else
      let x := prev - prev / (period : ℚ) + v
      x :: wilderAux period (i + 1) total x rest

/-- `wilder_smooth(data, period)`: cumulative running average while
`i < period`, then `result[i-1] - result[i-1]/period + data[i]`. -/
def wilder_smooth (data : List ℚ) (period : ℕ) : List ℚ :=
  wilderAux period 0 0 0 data

theorem wilderAux_length (period i : ℕ) (total prev : ℚ) (data : List ℚ) :
    (wilderAux period i total prev data).length = data.length := by
  induction data generalizing i total prev with
  | nil => rfl
  | cons v rest ih =>
    simp only [wilderAux]
    split <;> simp [ih]

theorem wilder_smooth_length (data : List ℚ) (period : ℕ) :
    (wilder_smooth data period).length = data.length :=
  wilderAux_length ..

/-- Python truthiness of a float-or-None: `None` and `0.0` are falsy. -/
def truthy : Option ℚ → Bool
  | none => false
  | some v => v != 0

/-- `xs[-1] if xs else None` for a list of optional values. -/
def lastOrNone (l : List (Option ℚ)) : Option ℚ := (l.getLast?).getD none

inductive CrossType
  | golden
  | dead
  deriving DecidableEq, Repr

/-- A recorded cross event: its kind and the index where it fired. -/
structure Cross where
  type : CrossType
  index : ℕ
  deriving DecidableEq, Repr

inductive Position
  | above
  | below
  deriving DecidableEq, Repr

/-- The dictionary returned by `detect_cross`. -/
structure CrossResult where
  crosses : List Cross
  lastCross : Option Cross
  daysSinceCross : ℕ
  daysAboveLong : ℕ
  daysBelowLong : ℕ
  currentPosition : Position
  deriving DecidableEq, Repr

/-- The mutable loop state of `detect_cross`. -/
structure CrossState where
  crosses : List Cross
  lastCross : Option Cross
  daysSinceCross : ℕ
  daysAboveLong : ℕ
  daysBelowLong : ℕ
  deriving DecidableEq, Repr

def initialCrossState : CrossState := ⟨[], none, 0, 0, 0⟩

/-- The guard `short_ma[i] is None or long_ma[i] is None or short_ma[i-1] is
None or long_ma[i-1] is None` (which makes the loop `continue`), packaged as a
single lookup: `some (s, l, ps, pl)` when all four values are defined. -/
def maLookup (shortMa longMa : List (Option ℚ)) (i : ℕ) : Option (ℚ × ℚ × ℚ × ℚ) :=
  match shortMa.getD i none, longMa.getD i none,
        shortMa.getD (i - 1) none, longMa.getD (i - 1) none with
  | some s, some l, some ps, some pl => some (s, l, ps, pl)
  | _, _, _, _ => none

/-- One iteration of the `detect_cross` loop at index `i ≥ 1`: skip if any of
the four looked-up values is `None`; otherwise fire a golden cross when
`short[i-1] < long[i-1]` and `short[i] > long[i]`, a dead cross when
`short[i-1] ≥ long[i-1]` and `short[i] ≤ long[i]`, then bump the counters. -/
def crossStep (shortMa longMa : List (Option ℚ)) (st : CrossState) (i : ℕ) : CrossState :=
  match maLookup shortMa longMa i with
  | none => st
  | some (s, l, ps, pl) =>
    let st1 :=
      if ps < pl ∧ s > l then
        { st with crosses := st.crosses ++ [⟨CrossType.golden, i⟩],
                  lastCross := some ⟨CrossType.golden, i⟩, daysSinceCross := 0 }
      else if ¬ ps < pl ∧ ¬ s > l then
        { st with crosses := st.crosses ++ [⟨CrossType.dead, i⟩],
                  lastCross := some ⟨CrossType.dead, i⟩, daysSinceCross := 0 }
      else st
    let st2 := { st1 with daysSinceCross := st1.daysSinceCross + 1 }
    if s > l then
      { st2 with daysAboveLong := st2.daysAboveLong + 1, daysBelowLong := 0 }
    else
      { st2 with daysBelowLong := st2.daysBelowLong + 1, daysAboveLong := 0 }

/-- The event (if any) the loop records at index `i`, as a standalone value. -/
def crossEventAt (shortMa longMa : List (Option ℚ)) (i : ℕ) : Option Cross :=
  match maLookup shortMa longMa i with
  | none => none
  | some (s, l, ps, pl) =>
    if ps < pl ∧ s > l then some ⟨CrossType.golden, i⟩
    else if ¬ ps < pl ∧ ¬ s > l then some ⟨CrossType.dead, i⟩
    else none

/-- `detect_cross(short_ma, long_ma)`: scan indices `1 .. len-1`, then compute
the current position with Python truthiness (`short_ma[-1] and long_ma[-1]
and short_ma[-1] > long_ma[-1]`). -/
def detect_cross (shortMa longMa : List (Option ℚ)) : CrossResult :=
  let st := (List.range' 1 (shortMa.length - 1)).foldl (crossStep shortMa longMa)
    initialCrossState
  let pos : Position :=
    match lastOrNone shortMa, lastOrNone longMa with
    | some s, some l => if s ≠ 0 ∧ l ≠ 0 ∧ s > l then Position.above else Position.below
    | _, _ => Position.below
  ⟨st.crosses, st.lastCross, st.daysSinceCross, st.daysAboveLong, st.daysBelowLong, pos⟩

theorem crossStep_crosses (shortMa longMa : List (Option ℚ)) (st : CrossState) (i : ℕ) :
    (crossStep shortMa longMa st i).crosses =
      st.crosses ++ (crossEventAt shortMa longMa i).toList := by
  rcases h : maLookup shortMa longMa i with _ | ⟨s, l, ps, pl⟩ <;>
    simp only [crossStep, crossEventAt, h]
  · simp
  · split_ifs <;> simp

theorem foldl_crossStep_crosses (shortMa longMa : List (Option ℚ))
    (L : List ℕ) (st : CrossState) :
    (L.foldl (crossStep shortMa longMa) st).crosses =
      st.crosses ++ L.filterMap (crossEventAt shortMa longMa) := by
  induction L generalizing st with
  | nil => simp
  | cons i L ih =>
    rw [List.foldl_cons, ih, crossStep_crosses, List.filterMap_cons]
    cases crossEventAt shortMa longMa i <;> simp

theorem detect_cross_crosses (shortMa longMa : List (Option ℚ)) :
    (detect_cross shortMa longMa).crosses =
      (List.range' 1 (shortMa.length - 1)).filterMap (crossEventAt shortMa longMa) := by
  simp only [detect_cross]
  rw [foldl_crossStep_crosses]
  rfl

theorem crossEventAt_index (shortMa longMa : List (Option ℚ)) (i : ℕ) (c : Cross)
    (h : crossEventAt shortMa longMa i = some c) : c.index = i := by
  rcases h' : maLookup shortMa longMa i with _ | ⟨s, l, ps, pl⟩ <;>
    simp only [crossEventAt, h'] at h
  · exact Option.noConfusion h
  · split_ifs at h <;> first
      | exact Option.noConfusion h
      | (cases h; rfl)

/-! ### RSI -/

inductive RsiStatusType
  | unknown
  | neutral
  | overbought
  | oversold
  | bullish
  | bearish
  deriving DecidableEq, Repr

/-- The `status` dictionary of the RSI result (`type` plus the `value` key;
the insufficient-data status carries no value, modelled as `none`). -/
structure RsiStatus where
  type : RsiStatusType
  value : Option ℚ
  deriving DecidableEq, Repr

structure RsiResult where
  values : List (Option ℚ)
  current : Option ℚ
  status : RsiStatus
  deriving DecidableEq, Repr

/-- `changes = [prices[i] - prices[i-1] for i in range(1, len(prices))]`. -/
def diffs (l : List ℚ) : List ℚ :=
  (l.zip (l.drop 1)).map (fun pr => pr.2 - pr.1)

/-- `100 if avg_loss == 0 else 100 - 100/(1 + avg_gain/avg_loss)`. -/
def rsiVal (avgGain avgLoss : ℚ) : ℚ :=
  if avgLoss = 0 then 100 else 100 - 100 / (1 + avgGain / avgLoss)

/-- The RSI loop for `i > period`: smoothed update
`avg = (avg*(period-1) + new)/period`, then the RSI formula. -/
def rsiSteps (period : ℕ) : ℚ → ℚ → List (ℚ × ℚ) → List ℚ
  | _, _, [] => []
  | avgGain, avgLoss, (g, lo) :: rest =>
    let ag := (avgGain * ((period : ℚ) - 1) + g) / (period : ℚ)
    let al := (avgLoss * ((period : ℚ) - 1) + lo) / (period : ℚ)
    rsiVal ag al :: rsiSteps period ag al rest

/-- `gains = [max(0, c) for c in changes]`. -/
def rsiGains (prices : List ℚ) : List ℚ :=
  (diffs prices).map (fun c => max 0 c)

/-- `losses = [abs(min(0, c)) for c in changes]`. -/
def rsiLosses (prices : List ℚ) : List ℚ :=
  (diffs prices).map (fun c => |min 0 c|)

/-- Seed `avg_gain = sum(gains[:period]) / period`. -/
def rsiAvgGain (prices : List ℚ) (period : ℕ) : ℚ :=
  ((rsiGains prices).take period).sum / (period : ℚ)

/-- Seed `avg_loss = sum(losses[:period]) / period`. -/
def rsiAvgLoss (prices : List ℚ) (period : ℕ) : ℚ :=
  ((rsiLosses prices).take period).sum / (period : ℚ)

/-- The values appended by the loop over `range(period, len(changes))`: the
first iteration (`i == period`) uses the seed averages unchanged, later ones
apply the smoothed update. -/
def rsiCore (prices : List ℚ) (period : ℕ) : List ℚ :=
  match ((rsiGains prices).zip (rsiLosses prices)).drop period with
  | [] => []
  | _ :: rest =>
    rsiVal (rsiAvgGain prices period) (rsiAvgLoss prices period) ::
      rsiSteps period (rsiAvgGain prices period) (rsiAvgLoss prices period) rest

/-- The aligned RSI series: `[None]*period ++ loop values`, with one extra
`None` inserted at the front. -/
def rsiValues (prices : List ℚ) (period : ℕ) : List (Option ℚ) :=
  none :: (List.replicate period none ++ (rsiCore prices period).map some)

/-- `rsi(prices, period)`. -/
def rsi (prices : List ℚ) (period : ℕ := 14) : RsiResult :=
  if prices.length < period + 1 then
    ⟨[], none, ⟨RsiStatusType.unknown, none⟩⟩
  else
    let values := rsiValues prices period
    let lastRsi := lastOrNone values
    let status : RsiStatus :=
      match lastRsi with
      | none => ⟨RsiStatusType.neutral, none⟩
      | some v =>
        if v ≥ 70 then ⟨RsiStatusType.overbought, some v⟩
        else if v ≤ 30 then ⟨RsiStatusType.oversold, some v⟩
        else if v > 50 then ⟨RsiStatusType.bullish, some v⟩
        else ⟨RsiStatusType.bearish, some v⟩
    ⟨values, lastRsi, status⟩

/-! ### MACD -/

inductive MacdStatusType
  | neutral
  | bullish
  | bearish
  deriving DecidableEq, Repr

structure MacdCurrent where
  macd : Option ℚ
  signal : Option ℚ
  histogram : Option ℚ
  deriving DecidableEq, Repr

structure MacdResult where
  macdLine : List (Option ℚ)
  signalLine : List (Option ℚ)
  histogram : List (Option ℚ)
  current : MacdCurrent
  status : MacdStatusType
  deriving DecidableEq, Repr

/-- Pointwise difference, `None` if either operand is `None`. -/
def optSub : Option ℚ → Option ℚ → Option ℚ
  | some a, some b => some (a - b)
  | _, _ => none

/-- Re-expand the signal EMA onto the original alignment: walk the MACD line,
emitting `None` at `None` positions and the next `signal_ema` entry (or
`None` once it runs out) at defined positions. -/
def signalRemap (signalEma : List (Option ℚ)) : List (Option ℚ) → ℕ → List (Option ℚ)
  | [], _ => []
  | none :: rest, idx => none :: signalRemap signalEma rest idx
  | some _ :: rest, idx => signalEma.getD idx none :: signalRemap signalEma rest (idx + 1)

/-- `prev_hist <= 0 and last_hist and last_hist > 0` (Python truthiness on
`last_hist`). -/
def isStrengthening (prevHist lastHist : Option ℚ) : Bool :=
  match prevHist, lastHist with
  | some p, some h => decide (p ≤ 0) && truthy (some h) && decide (0 < h)
  | _, _ => false

/-- `prev_hist >= 0 and last_hist and last_hist < 0`. -/
def isWeakening (prevHist lastHist : Option ℚ) : Bool :=
  match prevHist, lastHist with
  | some p, some h => decide (0 ≤ p) && truthy (some h) && decide (h < 0)
  | _, _ => false

/-- `macd(prices)` with the 12/26/9 configuration. -/
def macd (prices : List ℚ) (fast : ℕ := 12) (slow : ℕ := 26) (signalPeriod : ℕ := 9) :
    MacdResult :=
  let emaFast := ema prices fast
  let emaSlow := ema prices slow
  let macdLine := (List.range prices.length).map (fun i =>
    optSub (emaFast.getD i none) (emaSlow.getD i none))
  let validMacd := macdLine.filterMap id
  let signalEma := if signalPeriod ≤ validMacd.length then ema validMacd signalPeriod else []
  let signalLine := signalRemap signalEma macdLine 0
  let histogram := (List.range prices.length).map (fun i =>
    optSub (macdLine.getD i none) (signalLine.getD i none))
  let lastMacd := lastOrNone macdLine
  let lastSignal := lastOrNone signalLine
  let lastHist := lastOrNone histogram
  let prevHist := if 1 < histogram.length then histogram.getD (histogram.length - 2) none
    else none
  let status : MacdStatusType :=
    match lastMacd, lastSignal with
    | some m, some _ =>
      if isStrengthening prevHist lastHist then MacdStatusType.bullish
      else if isWeakening prevHist lastHist then MacdStatusType.bearish
      else if m > 0 then MacdStatusType.bullish
      else MacdStatusType.bearish
    | _, _ => MacdStatusType.neutral
  ⟨macdLine, signalLine, histogram, ⟨lastMacd, lastSignal, lastHist⟩, status⟩

/-! ### Bollinger Bands -/

inductive BBStatusType
  | normal
  | squeeze
  | overbought
  | oversold
  | elevated
  | low
  deriving DecidableEq, Repr

structure BollCurrent where
  upper : Option ℚ
  middle : Option ℚ
  lower : Option ℚ
  percentB : Option ℚ
  bandwidth : Option ℚ
  deriving DecidableEq, Repr

structure BollResult where
  upper : List (Option ℚ)
  middle : List (Option ℚ)
  lower : List (Option ℚ)
  bandwidth : List (Option ℚ)
  percentB : List (Option ℚ)
  current : BollCurrent
  isSqueeze : Bool
  status : BBStatusType
  deriving DecidableEq, Repr

/-- `x and x > c` under Python truthiness (`x` a float-or-None). -/
def truthyGt (x : Option ℚ) (c : ℚ) : Bool :=
  match x with
  | some v => v != 0 && decide (c < v)
  | none => false

/-- `x and x < c` under Python truthiness. -/
def truthyLt (x : Option ℚ) (c : ℚ) : Bool :=
  match x with
  | some v => v != 0 && decide (v < c)
  | none => false

/-- The trailing window `prices[i-period+1 : i+1]`. -/
def bollWindow (prices : List ℚ) (period i : ℕ) : List ℚ :=
  (prices.drop (i + 1 - period)).take period

/-- The window mean (`middle[i]`, which `sma` computes from the same slice). -/
def bollMean (prices : List ℚ) (period i : ℕ) : ℚ :=
  (bollWindow prices period i).sum / (period : ℚ)

/-- Population variance of the trailing window (divide by `period`). -/
def bollVariance (prices : List ℚ) (period i : ℕ) : ℚ :=
  ((bollWindow prices period i).map (fun x => (x - bollMean prices period i) ^ 2)).sum /
    (period : ℚ)

/-- `mean + std_dev_mult * std_dev` at index `i`. -/
def bollUpper (sqrtF : ℚ → ℚ) (prices : List ℚ) (period : ℕ) (mult : ℚ) (i : ℕ) : ℚ :=
  bollMean prices period i + mult * sqrtF (bollVariance prices period i)

/-- `mean - std_dev_mult * std_dev` at index `i`. -/
def bollLower (sqrtF : ℚ → ℚ) (prices : List ℚ) (period : ℕ) (mult : ℚ) (i : ℕ) : ℚ :=
  bollMean prices period i - mult * sqrtF (bollVariance prices period i)

/-- The aligned `upper` band series. -/
def bollUpperList (sqrtF : ℚ → ℚ) (prices : List ℚ) (period : ℕ) (mult : ℚ) :
    List (Option ℚ) :=
  (List.range prices.length).map (fun i =>
    if i < period - 1 then none else some (bollUpper sqrtF prices period mult i))

/-- The aligned `lower` band series. -/
def bollLowerList (sqrtF : ℚ → ℚ) (prices : List ℚ) (period : ℕ) (mult : ℚ) :
    List (Option ℚ) :=
  (List.range prices.length).map (fun i =>
    if i < period - 1 then none else some (bollLower sqrtF prices period mult i))

/-- The aligned `bandwidth` series: `(upper-lower)/middle*100`, `0` when the
mean is falsy (zero). -/
def bollBandwidthList (sqrtF : ℚ → ℚ) (prices : List ℚ) (period : ℕ) (mult : ℚ) :
    List (Option ℚ) :=
  (List.range prices.length).map (fun i =>
    if i < period - 1 then none
    else
      some (if bollMean prices period i ≠ 0 then
        (bollUpper sqrtF prices period mult i - bollLower sqrtF prices period mult i) /
          bollMean prices period i * 100
      else 0))

/-- The aligned `%B` series: `(price - lower) / (upper - lower)`, `0.5` when
the band range is falsy (zero). -/
def bollPercentBList (sqrtF : ℚ → ℚ) (prices : List ℚ) (period : ℕ) (mult : ℚ) :
    List (Option ℚ) :=
  (List.range prices.length).map (fun i =>
    if i < period - 1 then none
    else
      some (if bollUpper sqrtF prices period mult i - bollLower sqrtF prices period mult i ≠ 0
        then (prices.getD i 0 - bollLower sqrtF prices period mult i) /
          (bollUpper sqrtF prices period mult i - bollLower sqrtF prices period mult i)
      else 1 / 2))

/-- `bollinger_bands(prices, period=20, std_dev_mult=2)`.  `sqrtF` stands in
for `math.sqrt`. -/
def bollinger_bands (sqrtF : ℚ → ℚ) (prices : List ℚ) (period : ℕ := 20)
    (mult : ℚ := 2) : BollResult :=
  let middle := sma prices period
  let upper := bollUpperList sqrtF prices period mult
  let lower := bollLowerList sqrtF prices period mult
  let bandwidth := bollBandwidthList sqrtF prices period mult
  let percentB := bollPercentBList sqrtF prices period mult
  let lastPb := lastOrNone percentB
  let lastBw := lastOrNone bandwidth
  let validBw := (bandwidth.drop (bandwidth.length - 20)).filterMap id
  let avgBw := if validBw = [] then 0 else validBw.sum / (validBw.length : ℚ)
  let isSqueeze : Bool :=
    match lastBw with
    | some b => b != 0 && decide (b < avgBw * (4 / 5))
    | none => false
  let status : BBStatusType :=
    if isSqueeze then BBStatusType.squeeze
    else if truthyGt lastPb 1 then BBStatusType.overbought
    else if truthyLt lastPb 0 then BBStatusType.oversold
    else if truthyGt lastPb (4 / 5) then BBStatusType.elevated
    else if truthyLt lastPb (1 / 5) then BBStatusType.low
    else BBStatusType.normal
  ⟨upper, middle, lower, bandwidth, percentB,
    ⟨lastOrNone upper, lastOrNone middle, lastOrNone lower, lastPb, lastBw⟩,
    isSqueeze, status⟩

/-! ### ADX / ATR -/

inductive AdxStatusType
  | unknown
  | weak
  | moderate
  | strong
  deriving DecidableEq, Repr

structure AdxResult where
  values : List ℚ
  plusDI : List ℚ
  minusDI : List ℚ
  current : Option ℚ
  status : AdxStatusType
  deriving DecidableEq, Repr

inductive AtrStatusType
  | unknown
  | normal
  | high
  | low
  deriving DecidableEq, Repr

structure AtrResult where
  values : List ℚ
  current : Option ℚ
  percent : Option ℚ
  status : AtrStatusType
  deriving DecidableEq, Repr

/-- Per-bar true range `max(high-low, |high-prevClose|, |low-prevClose|)`
over consecutive candle pairs (one entry per index `1 .. len-1`). -/
def trueRangeList (candles : List Candle) : List ℚ :=
  (candles.zip (candles.drop 1)).map (fun pr =>
    max (pr.2.high - pr.2.low) (max |pr.2.high - pr.1.close| |pr.2.low - pr.1.close|))

/-- `+DM`: `up_move if up_move > down_move and up_move > 0 else 0`. -/
def plusDmList (candles : List Candle) : List ℚ :=
  (candles.zip (candles.drop 1)).map (fun pr =>
    let upMove := pr.2.high - pr.1.high
    let downMove := pr.1.low - pr.2.low
    if upMove > downMove ∧ upMove > 0 then upMove else 0)

/-- `-DM`: mirrored. -/
def minusDmList (candles : List Candle) : List ℚ :=
  (candles.zip (candles.drop 1)).map (fun pr =>
    let upMove := pr.2.high - pr.1.high
    let downMove := pr.1.low - pr.2.low
    if downMove > upMove ∧ downMove > 0 then downMove else 0)

/-- `adx(candles, period=14)`. -/
def adx (candles : List Candle) (period : ℕ := 14) : AdxResult :=
  if candles.length < period * 2 then ⟨[], [], [], none, AdxStatusType.unknown⟩
  else
    let tr := trueRangeList candles
    let pdm := plusDmList candles
    let mdm := minusDmList candles
    let smoothTr := wilder_smooth tr period
    let smoothPdm := wilder_smooth pdm period
    let smoothMdm := wilder_smooth mdm period
    let plusDI := (List.range smoothTr.length).map (fun i =>
      if smoothTr.getD i 0 = 0 then 0 else smoothPdm.getD i 0 / smoothTr.getD i 0 * 100)
    let minusDI := (List.range smoothTr.length).map (fun i =>
      if smoothTr.getD i 0 = 0 then 0 else smoothMdm.getD i 0 / smoothTr.getD i 0 * 100)
    let dx := (List.range smoothTr.length).map (fun i =>
      let p := plusDI.getD i 0
      let m := minusDI.getD i 0
      if p + m = 0 then 0 else |p - m| / (p + m) * 100)
    let adxValues := wilder_smooth dx period
    let lastAdx := adxValues.getLast?
    let status : AdxStatusType :=
      match lastAdx with
      | some v =>
        if v ≠ 0 ∧ v ≥ 25 then AdxStatusType.strong
        else if v ≠ 0 ∧ v ≥ 20 then AdxStatusType.moderate
        else AdxStatusType.weak
      | none => AdxStatusType.weak
    ⟨adxValues, plusDI, minusDI, lastAdx, status⟩

/-- `atr(candles, period=14)`. -/
def atr (candles : List Candle) (period : ℕ := 14) : AtrResult :=
  if candles.length < period + 1 then ⟨[], none, none, AtrStatusType.unknown⟩
  else
    let tr := trueRangeList candles
    let atrValues := wilder_smooth tr period
    let lastAtr := atrValues.getLast?
    let lastPrice := ((candles.map Candle.close).getLast?).getD 0
    let atrPercent : Option ℚ :=
      match lastAtr with
      | some a => if a ≠ 0 ∧ lastPrice ≠ 0 then some (a / lastPrice * 100) else none
      | none => none
    let status : AtrStatusType :=
      match atrPercent with
      | some p =>
        if p ≠ 0 ∧ p > 3 then AtrStatusType.high
        else if p ≠ 0 ∧ p < 3 / 2 then AtrStatusType.low
        else AtrStatusType.normal
      | none => AtrStatusType.normal
    ⟨atrValues, lastAtr, atrPercent, status⟩

/-! ### Composite signal score -/

/-- One entry of the `signals` list (`name` and `positive`; the free-text
`status` string is display-only and omitted from the embedding). -/
structure Signal where
  name : String
  positive : Option Bool
  deriving DecidableEq, Repr

inductive ScoreStatusType
  | neutral
  | bullish
  | positive
  | bearish
  | negative
  deriving DecidableEq, Repr

structure ScoreResult where
  score : ℤ
  fulfillmentRate : ℤ
  fulfilled : ℕ
  total : ℕ
  status : ScoreStatusType
  signals : List Signal
  deriving DecidableEq, Repr

/-- The `maCross` fields `calculate_signal_score` reads. -/
structure MaCrossInput where
  currentPosition : Position
  lastCross : Option Cross
  daysSinceCross : ℕ
  deriving DecidableEq, Repr

/-- The indicator fields `calculate_signal_score` reads; `none` models an
absent (or falsy) entry. -/
structure Indicators where
  maCross : Option MaCrossInput
  rsi : Option (Option ℚ)
  macd : Option MacdStatusType
  bollinger : Option (BBStatusType × Bool)
  adx : Option (Option ℚ × AdxStatusType)
  deriving DecidableEq, Repr

/-- The scorer's running state: `score`, `signals`, and the `fulfilled` and
`total` name lists. -/
structure ScoreState where
  score : ℤ
  signals : List Signal
  fulfilled : List String
  total : List String
  deriving DecidableEq, Repr

/-- Python 3 `round` on a rational: round half to even. -/
def pyRound (q : ℚ) : ℤ :=
  if q - ⌊q⌋ < 1 / 2 then ⌊q⌋
  else if q - ⌊q⌋ > 1 / 2 then ⌊q⌋ + 1
  else if Even ⌊q⌋ then ⌊q⌋ else ⌊q⌋ + 1

/-- The MA-cross block of `calculate_signal_score`. -/
def scoreMaCross (mcOpt : Option MaCrossInput) (st : ScoreState) : ScoreState :=
  match mcOpt with
  | none => st
  | some mc =>
    let st := { st with total := st.total ++ ["MA크로스"] }
    let st :=
      if mc.currentPosition = Position.above then
        { st with score := st.score + 10,
                  signals := st.signals ++ [⟨"MA위치", some true⟩],
                  fulfilled := st.fulfilled ++ ["MA크로스"] }
      else
        { st with score := st.score - 10,
                  signals := st.signals ++ [⟨"MA위치", some false⟩] }
    match mc.lastCross with
    | some c =>
      if mc.daysSinceCross < 30 then
        match c.type with
        | CrossType.golden =>
          { st with score := st.score + 10,
                    signals := st.signals ++ [⟨"골든크로스", some true⟩] }
        | CrossType.dead =>
          { st with score := st.score - 10,
                    signals := st.signals ++ [⟨"데드크로스", some false⟩] }
      else st
    | none => st

/-- The RSI block. -/
def scoreRsi (rsiOpt : Option (Option ℚ)) (st : ScoreState) : ScoreState :=
  match rsiOpt with
  | none => st
  | some rsiCur =>
    let st := { st with total := st.total ++ ["RSI"] }
    match rsiCur with
    | none => st
    | some v =>
      if v ≤ 30 then
        { st with score := st.score + 5,
                  signals := st.signals ++ [⟨"RSI", some true⟩],
                  fulfilled := st.fulfilled ++ ["RSI"] }
      else if v ≥ 70 then
        { st with score := st.score - 5,
                  signals := st.signals ++ [⟨"RSI", some false⟩] }
      else if v > 50 then
        { st with score := st.score + 3,
                  signals := st.signals ++ [⟨"RSI", some true⟩],
                  fulfilled := st.fulfilled ++ ["RSI"] }
      else
        { st with score := st.score - 3,
                  signals := st.signals ++ [⟨"RSI", some false⟩] }

/-- The MACD block. -/
def scoreMacd (macdOpt : Option MacdStatusType) (st : ScoreState) : ScoreState :=
  match macdOpt with
  | none => st
  | some t =>
    let st := { st with total := st.total ++ ["MACD"] }
    if t = MacdStatusType.bullish then
      { st with score := st.score + 10,
                signals := st.signals ++ [⟨"MACD", some true⟩],
                fulfilled := st.fulfilled ++ ["MACD"] }
    else if t = MacdStatusType.bearish then
      { st with score := st.score - 10,
                signals := st.signals ++ [⟨"MACD", some false⟩] }
    else st

/-- The Bollinger block. -/
def scoreBollinger (bbOpt : Option (BBStatusType × Bool)) (st : ScoreState) : ScoreState :=
  match bbOpt with
  | none => st
  | some (t, squeeze) =>
    let st := { st with total := st.total ++ ["볼린저"] }
    if t = BBStatusType.oversold then
      { st with score := st.score + 5,
                signals := st.signals ++ [⟨"볼린저", some true⟩],
                fulfilled := st.fulfilled ++ ["볼린저"] }
    else if t = BBStatusType.overbought then
      { st with score := st.score - 5,
                signals := st.signals ++ [⟨"볼린저", some false⟩] }
    else if squeeze then
      { st with signals := st.signals ++ [⟨"볼린저", none⟩] }
    else st

/-- The ADX block. -/
def scoreAdx (adxOpt : Option (Option ℚ × AdxStatusType)) (st : ScoreState) : ScoreState :=
  match adxOpt with
  | none => st
  | some (_, t) =>
    let st := { st with total := st.total ++ ["ADX"] }
    if t = AdxStatusType.strong then
      { st with score := st.score + 5,
                signals := st.signals ++ [⟨"ADX", some true⟩],
                fulfilled := st.fulfilled ++ ["ADX"] }
    else if t = AdxStatusType.weak then
      { st with signals := st.signals ++ [⟨"ADX", none⟩] }
    else st

/-- `calculate_signal_score(indicators)`: start at 50, apply the blocks in
order, clamp to `[0, 100]`, classify, and compute the fulfillment rate. -/
def calculate_signal_score (ind : Indicators) : ScoreResult :=
  let st : ScoreState := ⟨50, [], [], []⟩
  let st := scoreMaCross ind.maCross st
  let st := scoreRsi ind.rsi st
  let st := scoreMacd ind.macd st
  let st := scoreBollinger ind.bollinger st
  let st := scoreAdx ind.adx st
  let score := max 0 (min 100 st.score)
  let statusType : ScoreStatusType :=
    if score ≥ 75 then ScoreStatusType.bullish
    else if score ≥ 60 then ScoreStatusType.positive
    else if score ≤ 25 then ScoreStatusType.bearish
    else if score ≤ 40 then ScoreStatusType.negative
    else ScoreStatusType.neutral
  let fulfillmentRate : ℤ :=
    if st.total = [] then 0
    else pyRound (((st.fulfilled.length : ℚ) / (st.total.length : ℚ)) * 100)
  ⟨score, fulfillmentRate, st.fulfilled.length, st.total.length, statusType, st.signals⟩

/-! ### Whole pipeline -/

inductive VolumeStatus
  | increase
  | decrease
  | normal
  deriving DecidableEq, Repr

structure VolumeResult where
  current : ℚ
  avg20 : ℚ
  ratio : ℚ
  status : VolumeStatus
  deriving DecidableEq, Repr

/-- The full indicator tree `calculate_all` returns on success. -/
structure FullResult where
  maCross : CrossResult
  rsi : RsiResult
  macd : MacdResult
  bollinger : BollResult
  adx : AdxResult
  atr : AtrResult
  volume : VolumeResult
  signalScore : ScoreResult
  lastUpdate : String
  deriving DecidableEq, Repr

/-- Either the `{error, message}` failure dictionary or the full tree. -/
inductive AllResult
  | insufficientData (message : String)
  | ok (result : FullResult)
  deriving DecidableEq, Repr

/-- Whether the result carries the top-level `error` key. -/
def AllResult.hasError : AllResult → Bool
  | AllResult.insufficientData _ => true
  | AllResult.ok _ => false

/-- `calculate_all(candles)`.  `sqrtF` models `math.sqrt`; `now` models
`datetime.now().isoformat()`. -/
def calculate_all (sqrtF : ℚ → ℚ) (now : String) (candles : List Candle) : AllResult :=
  if candles.length < 30 then
    AllResult.insufficientData "데이터 부족 (최소 30일 필요)"
  else
    let closes := candles.map Candle.close
    let sma50 := sma closes 50
    let sma200 := sma closes 200
    let maCross := detect_cross sma50 sma200
    let rsiData := rsi closes 14
    let macdData := macd closes 12 26 9
    let bollingerData := bollinger_bands sqrtF closes 20 2
    let adxData := adx candles 14
    let atrData := atr candles 14
    let volumes := candles.map Candle.volume
    let avgVolume20 : ℚ :=
      if 20 ≤ volumes.length then (volumes.drop (volumes.length - 20)).sum / 20
      else volumes.sum / (volumes.length : ℚ)
    let currentVolume := (volumes.getLast?).getD 0
    let volumeRatio := if avgVolume20 > 0 then currentVolume / avgVolume20 else 1
    let volStatus : VolumeStatus :=
      if volumeRatio > 3 / 2 then VolumeStatus.increase
      else if volumeRatio < 1 / 2 then VolumeStatus.decrease
      else VolumeStatus.normal
    let ind : Indicators :=
      { maCross := some ⟨maCross.currentPosition, maCross.lastCross, maCross.daysSinceCross⟩
        rsi := some rsiData.current
        macd := some macdData.status
        bollinger := some (bollingerData.status, bollingerData.isSqueeze)
        adx := some (adxData.current, adxData.status) }
    let signalScore := calculate_signal_score ind
    AllResult.ok ⟨maCross, rsiData, macdData, bollingerData, adxData, atrData,
      ⟨currentVolume, avgVolume20, volumeRatio, volStatus⟩, signalScore, now⟩

/-- Replace the timestamp field, for comparing two runs modulo `lastUpdate`. -/
def AllResult.withLastUpdate : AllResult → String → AllResult
  | AllResult.insufficientData m, _ => AllResult.insufficientData m
  | AllResult.ok r, t => AllResult.ok { r with lastUpdate := t }

/-! ### Claim theorems -/

/-- C2: `calculate_all` returns a top-level `error` result exactly when the
candle sequence has fewer than 30 entries (so length 29 gives an error and
any length-30 sequence gives the full indicator tree with no error key). -/
theorem calculate_all_guard (sqrtF : ℚ → ℚ) (now : String) (candles : List Candle) :
    (calculate_all sqrtF now candles).hasError = true ↔ candles.length < 30 := by
  unfold calculate_all
  split <;> simp_all [AllResult.hasError]

/-- C10: the pipeline is deterministic — two runs on the identical candle
sequence agree on every field except the `lastUpdate` timestamp. -/
theorem calculate_all_deterministic (sqrtF : ℚ → ℚ) (t1 t2 : String)
    (candles : List Candle) :
    (calculate_all sqrtF t1 candles).withLastUpdate "" =
      (calculate_all sqrtF t2 candles).withLastUpdate "" := by
  unfold calculate_all
  split <;> rfl

/-- C7: for every combination of indicator inputs the composite score is an
integer in `[0, 100]`. -/
theorem signal_score_clamped (ind : Indicators) :
    0 ≤ (calculate_signal_score ind).score ∧ (calculate_signal_score ind).score ≤ 100 := by
  unfold calculate_signal_score
  refine ⟨le_max_left _ _, max_le (by norm_num) (min_le_left _ _)⟩

theorem wilderAux_getD_lt (period : ℕ) (data : List ℚ) :
    ∀ (j i : ℕ) (total prev : ℚ), j < data.length → i + j < period →
      (wilderAux period i total prev data).getD j 0 =
        (total + (data.take (j + 1)).sum) / ((i : ℚ) + (j : ℚ) + 1) := by
  induction data with
  | nil => intro j i total prev h _; simp at h
  | cons v rest ih =>
    intro j i total prev hj hp
    match j with
    | 0 =>
      simp only [wilderAux, if_pos (show i < period by omega)]
      simp
    | j' + 1 =>
      simp only [wilderAux, if_pos (show i < period by omega), List.getD_cons_succ]
      rw [ih j' (i + 1) (total + v) _ (by simpa using hj) (by omega),
        List.take_succ_cons, List.sum_cons]
      push_cast
      ring

theorem wilderAux_getD_ge (period : ℕ) :
    ∀ (j : ℕ) (data : List ℚ) (i : ℕ) (total prev : ℚ), j + 1 < data.length →
      period ≤ i + j + 1 →
      (wilderAux period i total prev data).getD (j + 1) 0 =
        (wilderAux period i total prev data).getD j 0 -
          (wilderAux period i total prev data).getD j 0 / (period : ℚ) +
          data.getD (j + 1) 0 := by
  intro j
  induction j with
  | zero =>
    intro data i total prev hlen hp
    rcases data with _ | ⟨v, _ | ⟨w, rest⟩⟩
    · simp at hlen
    · simp at hlen
    · by_cases h : i < period
      · simp only [wilderAux, if_pos h, if_neg (show ¬ i + 1 < period by omega)]
        simp
      · simp only [wilderAux, if_neg h, if_neg (show ¬ i + 1 < period by omega)]
        simp
  | succ j' ih =>
    intro data i total prev hlen hp
    rcases data with _ | ⟨v, rest⟩
    · simp at hlen
    · by_cases h : i < period
      · simp only [wilderAux, if_pos h, List.getD_cons_succ]
        exact ih rest (i + 1) _ _ (by simpa using hlen) (by omega)
      · simp only [wilderAux, if_neg h, List.getD_cons_succ]
        exact ih rest (i + 1) _ _ (by simpa using hlen) (by omega)

/-- C9: `wilder_smooth` preserves length (with every position a defined
rational), equals the cumulative running average of `data[0..i]` for
`i < period`, and satisfies
`smoothed[i] = smoothed[i-1] - smoothed[i-1]/period + data[i]` for
`i ≥ period` (for any positive period — `period = 0` raises in the source). -/
theorem wilder_smooth_spec (data : List ℚ) (period i : ℕ)
    (hperiod : 1 ≤ period) (hi : i < data.length) :
    (wilder_smooth data period).length = data.length ∧
    (i < period →
      (wilder_smooth data period).getD i 0 = (data.take (i + 1)).sum / ((i : ℚ) + 1)) ∧
    (period ≤ i →
      (wilder_smooth data period).getD i 0 =
        (wilder_smooth data period).getD (i - 1) 0 -
          (wilder_smooth data period).getD (i - 1) 0 / (period : ℚ) +
          data.getD i 0) := by
  refine ⟨wilder_smooth_length data period, fun hip => ?_, fun hip => ?_⟩
  · have := wilderAux_getD_lt period data i 0 0 0 hi (by omega)
    simpa [wilder_smooth] using this
  · have hi1 : i - 1 + 1 = i := by omega
    have := wilderAux_getD_ge period (i - 1) data 0 0 0 (by omega) (by omega)
    rw [hi1] at this
    simpa [wilder_smooth] using this

/-- Witness for C9 at `data = [1, 2, 3, 4]`, `period = 2`, `i = 3`. -/
theorem wilder_smooth_spec_witness :
    (wilder_smooth [1, 2, 3, 4] 2).length = ([1, 2, 3, 4] : List ℚ).length ∧
    (3 < 2 →
      (wilder_smooth [1, 2, 3, 4] 2).getD 3 0 =
        (([1, 2, 3, 4] : List ℚ).take 4).sum / ((3 : ℚ) + 1)) ∧
    (2 ≤ 3 →
      (wilder_smooth [1, 2, 3, 4] 2).getD 3 0 =
        (wilder_smooth [1, 2, 3, 4] 2).getD 2 0 -
          (wilder_smooth [1, 2, 3, 4] 2).getD 2 0 / (2 : ℚ) +
          ([1, 2, 3, 4] : List ℚ).getD 3 0) :=
  wilder_smooth_spec [1, 2, 3, 4] 2 3 (by norm_num) (by norm_num)

theorem mem_detect_cross_crosses (shortMa longMa : List (Option ℚ)) (c : Cross) :
    c ∈ (detect_cross shortMa longMa).crosses ↔
      c.index ∈ List.range' 1 (shortMa.length - 1) ∧
        crossEventAt shortMa longMa c.index = some c := by
  rw [detect_cross_crosses, List.mem_filterMap]
  constructor
  · rintro ⟨j, hj, hev⟩
    have hidx := crossEventAt_index _ _ _ _ hev
    rw [← hidx] at hj
    exact ⟨hj, by rwa [hidx]⟩
  · rintro ⟨hj, hev⟩
    exact ⟨c.index, hj, hev⟩

/-- C3 counterexample.  The claim says a golden cross fires at `i` iff
`short[i-1] ≤ long[i-1]` and `short[i] > long[i]`, and a dead cross iff
`short[i-1] ≥ long[i-1]` and `short[i] < long[i]` (strict at `i`).  With
`short = [1, 2]`, `long = [1, 1]` the claimed golden condition holds at
`i = 1` (`1 ≤ 1`, `2 > 1`) yet the code records nothing; with
`short = long = [1, 1]` the claimed dead condition fails at `i = 1`
(`1 < 1` is false) yet the code records a dead cross. -/
theorem detect_cross_claim_counterexample :
    (((1 : ℚ) ≤ 1 ∧ (1 : ℚ) < 2) ∧
      (⟨CrossType.golden, 1⟩ : Cross) ∉
        (detect_cross [some 1, some 2] [some 1, some 1]).crosses) ∧
    (¬ ((1 : ℚ) < 1) ∧
      (⟨CrossType.dead, 1⟩ : Cross) ∈
        (detect_cross [some 1, some 1] [some 1, some 1]).crosses) := by
  refine ⟨⟨⟨le_refl 1, by norm_num⟩, ?_⟩, ⟨by norm_num, ?_⟩⟩ <;> decide

/-- C3 amended: at every index `i ≥ 1` where both series are defined at
`i-1` and `i`, the detector records a golden cross iff
`short[i-1] < long[i-1]` (strictly below before) and `short[i] > long[i]`,
and a dead cross iff `short[i-1] ≥ long[i-1]` and `short[i] ≤ long[i]`;
otherwise no event is recorded at `i`. -/
theorem detect_cross_events (shortMa longMa : List (Option ℚ)) (i : ℕ) (s l ps pl : ℚ)
    (h1 : 1 ≤ i) (h2 : i < shortMa.length)
    (hs : shortMa.getD i none = some s) (hl : longMa.getD i none = some l)
    (hps : shortMa.getD (i - 1) none = some ps)
    (hpl : longMa.getD (i - 1) none = some pl) :
    ((⟨CrossType.golden, i⟩ : Cross) ∈ (detect_cross shortMa longMa).crosses ↔
      ps < pl ∧ l < s) ∧
    ((⟨CrossType.dead, i⟩ : Cross) ∈ (detect_cross shortMa longMa).crosses ↔
      ¬ ps < pl ∧ ¬ l < s) := by
  have hlookup : maLookup shortMa longMa i = some (s, l, ps, pl) := by
    unfold maLookup
    rw [hs, hl, hps, hpl]
  have hrange : i ∈ List.range' 1 (shortMa.length - 1) := by
    rw [List.mem_range'_1]
    omega
  constructor
  · rw [mem_detect_cross_crosses]
    simp only [hrange, true_and]
    simp only [crossEventAt, hlookup]
    constructor
    · intro hev
      split_ifs at hev with hc1 hc2
      · exact hc1
      · exact absurd (Option.some.inj hev) (by simp)
    · intro hc
      rw [if_pos hc]
  · rw [mem_detect_cross_crosses]
    simp only [hrange, true_and]
    simp only [crossEventAt, hlookup]
    constructor
    · intro hev
      split_ifs at hev with hc1 hc2
      · exact absurd (Option.some.inj hev) (by simp)
      · exact hc2
    · intro hc
      rw [if_neg (by tauto), if_pos hc]

/-- Witness for C3 at `short = [1, 3]`, `long = [2, 2]`, `i = 1`. -/
theorem detect_cross_events_witness :
    ((⟨CrossType.golden, 1⟩ : Cross) ∈
        (detect_cross [some 1, some 3] [some 2, some 2]).crosses ↔
      (1 : ℚ) < 2 ∧ (2 : ℚ) < 3) ∧
    ((⟨CrossType.dead, 1⟩ : Cross) ∈
        (detect_cross [some 1, some 3] [some 2, some 2]).crosses ↔
      ¬ (1 : ℚ) < 2 ∧ ¬ (2 : ℚ) < 3) :=
  detect_cross_events [some 1, some 3] [some 2, some 2] 1 3 2 1 2
    (by norm_num) (by norm_num) (by decide) (by decide) (by decide) (by decide)

theorem getD_map_range (f : ℕ → Option ℚ) (n i : ℕ) (h : i < n) :
    ((List.range n).map f).getD i none = f i := by
  simp [List.getD_eq_getElem?_getD, List.getElem?_map, List.getElem?_range h]

theorem maLookup_map_range (fs fl : ℕ → ℚ) (n i : ℕ) (h1 : 1 ≤ i) (h2 : i < n) :
    maLookup ((List.range n).map (fun j => some (fs j)))
        ((List.range n).map (fun j => some (fl j))) i =
      some (fs i, fl i, fs (i - 1), fl (i - 1)) := by
  unfold maLookup
  rw [getD_map_range _ _ _ h2, getD_map_range _ _ _ h2,
    getD_map_range _ _ _ (by omega), getD_map_range _ _ _ (by omega)]

theorem crossStep_golden (shortMa longMa : List (Option ℚ)) (st : CrossState) (i : ℕ)
    (s l ps pl : ℚ) (hl : maLookup shortMa longMa i = some (s, l, ps, pl))
    (h1 : ps < pl) (h2 : s > l) :
    crossStep shortMa longMa st i =
      ⟨st.crosses ++ [⟨CrossType.golden, i⟩], some ⟨CrossType.golden, i⟩, 1,
        st.daysAboveLong + 1, 0⟩ := by
  simp only [crossStep, hl]
  rw [if_pos (show ps < pl ∧ s > l from And.intro h1 h2), if_pos h2]

theorem crossStep_above (shortMa longMa : List (Option ℚ)) (st : CrossState) (i : ℕ)
    (s l ps pl : ℚ) (hl : maLookup shortMa longMa i = some (s, l, ps, pl))
    (h1 : ¬ ps < pl) (h2 : s > l) :
    crossStep shortMa longMa st i =
      ⟨st.crosses, st.lastCross, st.daysSinceCross + 1, st.daysAboveLong + 1, 0⟩ := by
  simp only [crossStep, hl]
  rw [if_neg (show ¬ (ps < pl ∧ s > l) from fun hc => h1 hc.1),
    if_neg (show ¬ (¬ ps < pl ∧ ¬ s > l) from fun hc => hc.2 h2), if_pos h2]

theorem crossStep_below (shortMa longMa : List (Option ℚ)) (st : CrossState) (i : ℕ)
    (s l ps pl : ℚ) (hl : maLookup shortMa longMa i = some (s, l, ps, pl))
    (h1 : ps < pl) (h2 : ¬ s > l) :
    crossStep shortMa longMa st i =
      ⟨st.crosses, st.lastCross, st.daysSinceCross + 1, 0, st.daysBelowLong + 1⟩ := by
  simp only [crossStep, hl]
  rw [if_neg (show ¬ (ps < pl ∧ s > l) from fun hc => h2 hc.2),
    if_neg (show ¬ (¬ ps < pl ∧ ¬ s > l) from fun hc => hc.1 h1), if_neg h2]

theorem foldl_crossStep_before (fs fl : ℕ → ℚ) (n k : ℕ) (hk : k ≤ n)
    (hbelow : ∀ j, j < k → fs j < fl j) :
    ∀ j, j < k →
      (List.range' 1 j).foldl
          (crossStep ((List.range n).map (fun m => some (fs m)))
            ((List.range n).map (fun m => some (fl m)))) initialCrossState =
        ⟨[], none, j, 0, j⟩ := by
  intro j
  induction j with
  | zero => intro _; rfl
  | succ j ih =>
    intro hj
    have harith : 1 + 1 * j = j + 1 := by ring
    rw [List.range'_concat, List.foldl_append, ih (by omega), harith,
      List.foldl_cons, List.foldl_nil]
    have hb : fs j < fl j := hbelow j (by omega)
    have hb1 : fs (j + 1) < fl (j + 1) := hbelow (j + 1) hj
    rw [crossStep_below _ _ _ (j + 1) (fs (j + 1)) (fl (j + 1)) (fs j) (fl j)
      (by simpa using maLookup_map_range fs fl n (j + 1) (by omega) (by omega))
      hb (by exact fun h => absurd h (by linarith))]

theorem foldl_crossStep_at (fs fl : ℕ → ℚ) (n k : ℕ) (h1 : 1 ≤ k) (h2 : k < n)
    (hbelow : ∀ j, j < k → fs j < fl j) (hcross : fl k < fs k) :
    (List.range' 1 k).foldl
        (crossStep ((List.range n).map (fun m => some (fs m)))
          ((List.range n).map (fun m => some (fl m)))) initialCrossState =
      ⟨[⟨CrossType.golden, k⟩], some ⟨CrossType.golden, k⟩, 1, 1, 0⟩ := by
  obtain ⟨k', rfl⟩ : ∃ k', k = k' + 1 := ⟨k - 1, by omega⟩
  have harith : 1 + 1 * k' = k' + 1 := by ring
  rw [List.range'_concat, List.foldl_append,
    foldl_crossStep_before fs fl n (k' + 1) (by omega) hbelow k' (by omega), harith,
    List.foldl_cons, List.foldl_nil]
  have hb : fs k' < fl k' := hbelow k' (by omega)
  rw [crossStep_golden _ _ _ (k' + 1) (fs (k' + 1)) (fl (k' + 1)) (fs k') (fl k')
    (by simpa using maLookup_map_range fs fl n (k' + 1) (by omega) (by omega))
    hb hcross]
  rfl

theorem foldl_crossStep_after (fs fl : ℕ → ℚ) (n k : ℕ) (h1 : 1 ≤ k) (h2 : k < n)
    (hbelow : ∀ j, j < k → fs j < fl j)
    (habove : ∀ j, k ≤ j → j < n → fl j < fs j) :
    ∀ m, k ≤ m → m < n →
      (List.range' 1 m).foldl
          (crossStep ((List.range n).map (fun j => some (fs j)))
            ((List.range n).map (fun j => some (fl j)))) initialCrossState =
        ⟨[⟨CrossType.golden, k⟩], some ⟨CrossType.golden, k⟩, m - k + 1, m - k + 1, 0⟩ := by
  intro m
  induction m with
  | zero => omega
  | succ m ih =>
    intro hkm hmn
    by_cases hm : k = m + 1
    · subst hm
      simp only [Nat.sub_self]
      exact foldl_crossStep_at fs fl n (m + 1) h1 h2 hbelow
        (habove (m + 1) (le_refl _) hmn)
    · have hkm' : k ≤ m := by omega
      have harith : 1 + 1 * m = m + 1 := by ring
      rw [List.range'_concat, List.foldl_append, ih hkm' (by omega), harith,
        List.foldl_cons, List.foldl_nil]
      have ha : fl m < fs m := habove m hkm' (by omega)
      have ha1 : fl (m + 1) < fs (m + 1) := habove (m + 1) (by omega) hmn
      rw [crossStep_above _ _ _ (m + 1) (fs (m + 1)) (fl (m + 1)) (fs m) (fl m)
        (by simpa using maLookup_map_range fs fl n (m + 1) (by omega) (by omega))
        (by exact fun h => absurd h (by linarith)) ha1]
      have harith2 : m + 1 - k + 1 = m - k + 1 + 1 := by omega
      rw [harith2]

/-- C4 counterexample.  `short = [1, 3, 4]`, `long = [2, 2, 2]` cross exactly
once, from below to above, at index `k = 1`; the claim predicts
`daysSinceCross = len - 1 - k = 1`, but the code resets the counter to 0 and
then immediately increments it in the same iteration, giving `2`. -/
theorem detect_cross_days_counterexample :
    (detect_cross [some 1, some 3, some 4] [some 2, some 2, some 2]).crosses =
      [⟨CrossType.golden, 1⟩] ∧
    (detect_cross [some 1, some 3, some 4] [some 2, some 2, some 2]).daysSinceCross = 2 ∧
    (2 : ℕ) ≠ 3 - 1 - 1 := by
  refine ⟨?_, ?_, by norm_num⟩ <;> decide

/-- C4 amended: if the fully defined aligned series cross exactly once from
below to above at index `k` (strictly below before `k`, strictly above from
`k` on), then exactly one event — a golden cross at `k` — is recorded, and
`daysSinceCross` is the number of valid comparisons from `k` through the end,
namely `len - k` (the crossing comparison itself is counted: the counter is
reset to 0 and then incremented in the same iteration). -/
theorem detect_cross_single_golden (fs fl : ℕ → ℚ) (n k : ℕ)
    (h1 : 1 ≤ k) (h2 : k < n)
    (hbelow : ∀ j, j < k → fs j < fl j)
    (habove : ∀ j, k ≤ j → j < n → fl j < fs j) :
    (detect_cross ((List.range n).map (fun j => some (fs j)))
        ((List.range n).map (fun j => some (fl j)))).crosses =
      [⟨CrossType.golden, k⟩] ∧
    (detect_cross ((List.range n).map (fun j => some (fs j)))
        ((List.range n).map (fun j => some (fl j)))).daysSinceCross = n - k := by
  have hst := foldl_crossStep_after fs fl n k h1 h2 hbelow habove (n - 1)
    (by omega) (by omega)
  unfold detect_cross
  simp only [List.length_map, List.length_range]
  rw [hst]
  refine ⟨rfl, ?_⟩
  show n - 1 - k + 1 = n - k
  omega

/-- Witness for C4: `short = [1, 3, 4]`, `long = [2, 2, 2]` as fully defined
series of length 3 crossing once at `k = 1`; one golden cross at index 1 and
`daysSinceCross = 3 - 1 = 2`. -/
theorem detect_cross_single_golden_witness :
    (detect_cross ((List.range 3).map (fun j => some (([1, 3, 4] : List ℚ).getD j 0)))
        ((List.range 3).map (fun j => some (([2, 2, 2] : List ℚ).getD j 0)))).crosses =
      [⟨CrossType.golden, 1⟩] ∧
    (detect_cross ((List.range 3).map (fun j => some (([1, 3, 4] : List ℚ).getD j 0)))
        ((List.range 3).map (fun j => some (([2, 2, 2] : List ℚ).getD j 0)))).daysSinceCross =
      3 - 1 :=
  detect_cross_single_golden (fun j => ([1, 3, 4] : List ℚ).getD j 0)
    (fun j => ([2, 2, 2] : List ℚ).getD j 0) 3 1 (by norm_num) (by norm_num)
    (by decide) (by decide)

theorem diffs_cons_cons (a b : ℚ) (l : List ℚ) :
    diffs (a :: b :: l) = (b - a) :: diffs (b :: l) := by
  simp [diffs]

theorem diffs_length (l : List ℚ) : (diffs l).length = l.length - 1 := by
  simp only [diffs, List.length_map, List.length_zip, List.length_drop]
  omega

theorem diffs_pos_of_chain (l : List ℚ) (h : List.Chain' (· < ·) l) :
    ∀ x ∈ diffs l, 0 < x := by
  induction l with
  | nil => intro x hx; simp [diffs] at hx
  | cons a l ih =>
    cases l with
    | nil => intro x hx; simp [diffs] at hx
    | cons b rest =>
      intro x hx
      rw [diffs_cons_cons] at hx
      rcases List.mem_cons.mp hx with rfl | hx'
      · have hab : a < b := (List.chain'_cons.mp h).1
        linarith
      · exact ih (List.chain'_cons.mp h).2 x hx'

theorem rsiAvgLoss_eq_zero (prices : List ℚ) (period : ℕ)
    (h : List.Chain' (· < ·) prices) : rsiAvgLoss prices period = 0 := by
  have hz : ∀ x ∈ (rsiLosses prices).take period, x = 0 := by
    intro x hx
    have hx' : x ∈ rsiLosses prices := List.mem_of_mem_take hx
    simp only [rsiLosses] at hx'
    rcases List.mem_map.mp hx' with ⟨c, hc, rfl⟩
    have hcpos := diffs_pos_of_chain _ h c hc
    rw [min_eq_left hcpos.le, abs_zero]
  unfold rsiAvgLoss
  rw [List.sum_eq_zero hz, zero_div]

theorem lastOrNone_eq_none_of_all (l : List (Option ℚ)) (h : ∀ x ∈ l, x = none) :
    lastOrNone l = none := by
  unfold lastOrNone
  cases hl : l.getLast? with
  | none => rfl
  | some a =>
    have ha : a ∈ l := List.mem_of_mem_getLast? (by rw [hl]; rfl)
    rw [h a ha]
    rfl

/-- C5 counterexample.  The claim says at least `period + 1` prices yield a
defined RSI and that a monotonically increasing series of length ≥ 15 has
RSI 100 at its first defined index.  The strictly increasing 15-price series
below passes the `len < period + 1` guard, yet the loop
`range(period, len(changes))` is empty, so every output position is the
undefined marker and `current` is undefined — there is no defined index. -/
theorem rsi_claim_counterexample :
    List.Chain' (· < ·)
      ([1, 2, 3, 4, 5, 6, 7, 8, 9, 10, 11, 12, 13, 14, 15] : List ℚ) ∧
    ([1, 2, 3, 4, 5, 6, 7, 8, 9, 10, 11, 12, 13, 14, 15] : List ℚ).length = 14 + 1 ∧
    (rsi [1, 2, 3, 4, 5, 6, 7, 8, 9, 10, 11, 12, 13, 14, 15] 14).values =
      List.replicate 15 none ∧
    (rsi [1, 2, 3, 4, 5, 6, 7, 8, 9, 10, 11, 12, 13, 14, 15] 14).current = none := by
  refine ⟨by norm_num [List.chain'_cons], by decide, ?_, ?_⟩ <;> decide

/-- C5 amended: fewer than `period + 1` prices give the empty result with
status `unknown`; exactly `period + 1` prices pass that guard but still
leave every position undefined (the loop body never runs); and a strictly
increasing series needs length ≥ `period + 2`, after which the first defined
index is `period + 1` and its value is exactly 100. -/
theorem rsi_spec (prices : List ℚ) (period : ℕ) (hperiod : 1 ≤ period) :
    (prices.length < period + 1 →
      rsi prices period = ⟨[], none, ⟨RsiStatusType.unknown, none⟩⟩) ∧
    (prices.length = period + 1 →
      (rsi prices period).values = List.replicate (period + 1) none ∧
      (rsi prices period).current = none) ∧
    (List.Chain' (· < ·) prices → period + 2 ≤ prices.length →
      (rsi prices period).values.getD (period + 1) none = some 100) := by
  refine ⟨fun hshort => ?_, fun hlen => ?_, fun hchain hlen => ?_⟩
  · unfold rsi
    rw [if_pos hshort]
  · have hns : ¬ prices.length < period + 1 := by omega
    have hcore : rsiCore prices period = [] := by
      unfold rsiCore
      have hnil : ((rsiGains prices).zip (rsiLosses prices)).drop period = [] := by
        apply List.drop_eq_nil_of_le
        simp only [List.length_zip, rsiGains, rsiLosses, List.length_map, diffs_length]
        omega
      rw [hnil]
    have hval : rsiValues prices period = List.replicate (period + 1) none := by
      unfold rsiValues
      rw [hcore]
      simp [List.replicate_succ]
    have hv : (rsi prices period).values = rsiValues prices period := by
      unfold rsi
      rw [if_neg hns]
    have hc : (rsi prices period).current = lastOrNone (rsiValues prices period) := by
      unfold rsi
      rw [if_neg hns]
    rw [hv, hc, hval]
    exact ⟨rfl, lastOrNone_eq_none_of_all _ (fun x hx => (List.eq_of_mem_replicate hx))⟩
  · have hns : ¬ prices.length < period + 1 := by omega
    obtain ⟨p, rest, hdrop⟩ :
        ∃ p rest, ((rsiGains prices).zip (rsiLosses prices)).drop period = p :: rest := by
      cases hd : ((rsiGains prices).zip (rsiLosses prices)).drop period with
      | nil =>
        exfalso
        have := List.drop_eq_nil_iff.mp hd
        simp only [List.length_zip, rsiGains, rsiLosses, List.length_map, diffs_length] at this
        omega
      | cons p rest => exact ⟨p, rest, rfl⟩
    have hcore : rsiCore prices period =
        rsiVal (rsiAvgGain prices period) (rsiAvgLoss prices period) ::
          rsiSteps period (rsiAvgGain prices period) (rsiAvgLoss prices period) rest := by
      unfold rsiCore
      rw [hdrop]
    have hv : (rsi prices period).values = rsiValues prices period := by
      unfold rsi
      rw [if_neg hns]
    rw [hv]
    unfold rsiValues
    rw [List.getD_cons_succ,
      List.getD_append_right _ _ _ _ (by simp), hcore]
    simp [rsiVal, rsiAvgLoss_eq_zero prices period hchain]

/-- Witness for C5 at the strictly increasing 16-price series `[1, …, 16]`
with the default period 14. -/
theorem rsi_spec_witness :
    (([1, 2, 3, 4, 5, 6, 7, 8, 9, 10, 11, 12, 13, 14, 15, 16] : List ℚ).length < 14 + 1 →
      rsi [1, 2, 3, 4, 5, 6, 7, 8, 9, 10, 11, 12, 13, 14, 15, 16] 14 =
        ⟨[], none, ⟨RsiStatusType.unknown, none⟩⟩) ∧
    (([1, 2, 3, 4, 5, 6, 7, 8, 9, 10, 11, 12, 13, 14, 15, 16] : List ℚ).length = 14 + 1 →
      (rsi [1, 2, 3, 4, 5, 6, 7, 8, 9, 10, 11, 12, 13, 14, 15, 16] 14).values =
        List.replicate (14 + 1) none ∧
      (rsi [1, 2, 3, 4, 5, 6, 7, 8, 9, 10, 11, 12, 13, 14, 15, 16] 14).current = none) ∧
    (List.Chain' (· < ·)
        ([1, 2, 3, 4, 5, 6, 7, 8, 9, 10, 11, 12, 13, 14, 15, 16] : List ℚ) →
      14 + 2 ≤ ([1, 2, 3, 4, 5, 6, 7, 8, 9, 10, 11, 12, 13, 14, 15, 16] : List ℚ).length →
      (rsi [1, 2, 3, 4, 5, 6, 7, 8, 9, 10, 11, 12, 13, 14, 15, 16] 14).values.getD
        (14 + 1) none = some 100) :=
  rsi_spec [1, 2, 3, 4, 5, 6, 7, 8, 9, 10, 11, 12, 13, 14, 15, 16] 14 (by norm_num)

/-- C6 counterexample.  With the MA cross family alone present, position
`above` and a golden cross 5 days old, the score is `50 + 10 + 10 = 70`
(so the recent golden cross did contribute +10), yet `fulfilled = 1`: only
the MA-position check was counted, the golden cross was not appended to the
fulfilled list, contradicting the claim that it counts toward `fulfilled`
in addition to the MA-position fulfillment. -/
theorem signal_score_golden_counterexample :
    (calculate_signal_score
        ⟨some ⟨Position.above, some ⟨CrossType.golden, 3⟩, 5⟩,
          none, none, none, none⟩).score = 70 ∧
    (calculate_signal_score
        ⟨some ⟨Position.above, some ⟨CrossType.golden, 3⟩, 5⟩,
          none, none, none, none⟩).fulfilled = 1 := by
  decide

/-- C6 amended: a recent (`days < 30`) golden cross contributes +10 to the
score but is NOT counted toward `fulfilled` (only the MA-position check
`currentPosition == above` adds to the fulfilled list); a recent dead cross
contributes −10 and is likewise not counted. -/
theorem signal_score_recent_cross (pos : Position) (idx days : ℕ) (hdays : days < 30) :
    ((calculate_signal_score
        ⟨some ⟨pos, some ⟨CrossType.golden, idx⟩, days⟩, none, none, none, none⟩).score =
      50 + (if pos = Position.above then 10 else -10) + 10 ∧
    (calculate_signal_score
        ⟨some ⟨pos, some ⟨CrossType.golden, idx⟩, days⟩, none, none, none, none⟩).fulfilled =
      (if pos = Position.above then 1 else 0)) ∧
    ((calculate_signal_score
        ⟨some ⟨pos, some ⟨CrossType.dead, idx⟩, days⟩, none, none, none, none⟩).score =
      50 + (if pos = Position.above then 10 else -10) - 10 ∧
    (calculate_signal_score
        ⟨some ⟨pos, some ⟨CrossType.dead, idx⟩, days⟩, none, none, none, none⟩).fulfilled =
      (if pos = Position.above then 1 else 0)) := by
  cases pos <;>
    simp [calculate_signal_score, scoreMaCross, scoreRsi, scoreMacd, scoreBollinger,
      scoreAdx, hdays]

/-- Witness for C6 at `pos = above`, `idx = 3`, `days = 5`. -/
theorem signal_score_recent_cross_witness :
    ((calculate_signal_score
        ⟨some ⟨Position.above, some ⟨CrossType.golden, 3⟩, 5⟩, none, none, none, none⟩).score =
      50 + (if Position.above = Position.above then 10 else -10) + 10 ∧
    (calculate_signal_score
        ⟨some ⟨Position.above, some ⟨CrossType.golden, 3⟩, 5⟩, none, none, none,
          none⟩).fulfilled =
      (if Position.above = Position.above then 1 else 0)) ∧
    ((calculate_signal_score
        ⟨some ⟨Position.above, some ⟨CrossType.dead, 3⟩, 5⟩, none, none, none, none⟩).score =
      50 + (if Position.above = Position.above then 10 else -10) - 10 ∧
    (calculate_signal_score
        ⟨some ⟨Position.above, some ⟨CrossType.dead, 3⟩, 5⟩, none, none, none,
          none⟩).fulfilled =
      (if Position.above = Position.above then 1 else 0)) :=
  signal_score_recent_cross Position.above 3 5 (by norm_num)

theorem bollWindow_replicate (c : ℚ) (n period i : ℕ) (h1 : period - 1 ≤ i)
    (h2 : i < n) :
    bollWindow (List.replicate n c) period i = List.replicate period c := by
  unfold bollWindow
  rw [List.drop_replicate, List.take_replicate]
  congr 1
  omega

theorem bollMean_replicate (c : ℚ) (n period i : ℕ) (h1 : period - 1 ≤ i)
    (h2 : i < n) (h3 : 1 ≤ period) :
    bollMean (List.replicate n c) period i = c := by
  unfold bollMean
  rw [bollWindow_replicate c n period i h1 h2, List.sum_replicate, nsmul_eq_mul]
  have hp : (period : ℚ) ≠ 0 := Nat.cast_ne_zero.mpr (by omega)
  field_simp

theorem bollVariance_replicate (c : ℚ) (n period i : ℕ) (h1 : period - 1 ≤ i)
    (h2 : i < n) (h3 : 1 ≤ period) :
    bollVariance (List.replicate n c) period i = 0 := by
  unfold bollVariance
  rw [bollWindow_replicate c n period i h1 h2,
    bollMean_replicate c n period i h1 h2 h3]
  simp

/-- C8: at every defined position, `%B = (price - lower) / (upper - lower)`
with the explicit fallback `0.5` when the band range `upper - lower` is zero;
in particular, on a constant price series (where the window variance is zero,
so upper = lower) every defined `%B` value is exactly `0.5`.  `sqrtF 0 = 0`
captures `math.sqrt(0.0) == 0.0`. -/
theorem bollinger_percentB_spec (sqrtF : ℚ → ℚ) (prices : List ℚ) (period : ℕ)
    (mult : ℚ) (i : ℕ) (u lo c : ℚ) (n j : ℕ)
    (hsq : sqrtF 0 = 0) (hi : i < prices.length)
    (hu : (bollinger_bands sqrtF prices period mult).upper.getD i none = some u)
    (hl : (bollinger_bands sqrtF prices period mult).lower.getD i none = some lo)
    (hn : 20 ≤ n) (hj1 : 19 ≤ j) (hj2 : j < n) :
    (bollinger_bands sqrtF prices period mult).percentB.getD i none =
      some (if u - lo = 0 then 1 / 2 else (prices.getD i 0 - lo) / (u - lo)) ∧
    (bollinger_bands sqrtF (List.replicate n c) 20 2).percentB.getD j none =
      some (1 / 2) := by
  constructor
  · have hu' : (bollUpperList sqrtF prices period mult).getD i none = some u := hu
    have hl' : (bollLowerList sqrtF prices period mult).getD i none = some lo := hl
    unfold bollUpperList at hu'
    unfold bollLowerList at hl'
    rw [getD_map_range _ _ _ hi] at hu' hl'
    by_cases hip : i < period - 1
    · rw [if_pos hip] at hu'
      exact Option.noConfusion hu'
    · rw [if_neg hip] at hu' hl'
      have hu2 := Option.some.inj hu'
      have hl2 := Option.some.inj hl'
      show (bollPercentBList sqrtF prices period mult).getD i none = _
      unfold bollPercentBList
      rw [getD_map_range _ _ _ hi, if_neg hip, hu2, hl2]
      by_cases hz : u - lo = 0 <;> simp [hz]
  · have hlen : (List.replicate n c).length = n := List.length_replicate n c
    have hip : ¬ j < 20 - 1 := by omega
    have hvar : bollVariance (List.replicate n c) 20 j = 0 :=
      bollVariance_replicate c n 20 j (by omega) hj2 (by omega)
    have hub : bollUpper sqrtF (List.replicate n c) 20 2 j =
        bollMean (List.replicate n c) 20 j := by
      unfold bollUpper
      rw [hvar, hsq]
      ring
    have hlb : bollLower sqrtF (List.replicate n c) 20 2 j =
        bollMean (List.replicate n c) 20 j := by
      unfold bollLower
      rw [hvar, hsq]
      ring
    show (bollPercentBList sqrtF (List.replicate n c) 20 2).getD j none = _
    unfold bollPercentBList
    rw [hlen, getD_map_range _ _ _ hj2, if_neg hip, hub, hlb]
    simp

/-- Witness for C8: `prices = [4, 2, 6]` with `period = 2`, `mult = 0` and
`sqrtF = id` (so upper = lower = the window mean at index 2), plus the
constant series `replicate 20 5`. -/
theorem bollinger_percentB_spec_witness :
    (bollinger_bands id [4, 2, 6] 2 0).percentB.getD 2 none =
      some (if (4 : ℚ) - 4 = 0 then 1 / 2
        else (([4, 2, 6] : List ℚ).getD 2 0 - 4) / ((4 : ℚ) - 4)) ∧
    (bollinger_bands id (List.replicate 20 (5 : ℚ)) 20 2).percentB.getD 19 none =
      some (1 / 2) :=
  bollinger_percentB_spec id [4, 2, 6] 2 0 2 4 4 5 20 19 rfl (by norm_num)
    (by
      show (bollUpperList id [4, 2, 6] 2 0).getD 2 none = some 4
      unfold bollUpperList
      rw [getD_map_range _ _ _ (by norm_num)]
      norm_num [bollUpper, bollMean, bollWindow, List.sum_cons])
    (by
      show (bollLowerList id [4, 2, 6] 2 0).getD 2 none = some 4
      unfold bollLowerList
      rw [getD_map_range _ _ _ (by norm_num)]
      norm_num [bollLower, bollMean, bollWindow, List.sum_cons])
    (by norm_num) (by norm_num) (by norm_num)

/-! ### Length and warm-up lemmas for the alignment claim -/

theorem sma_length (prices : List ℚ) (period : ℕ) :
    (sma prices period).length = prices.length := by
  simp [sma]

theorem emaFrom_length (m : ℚ) (l : List ℚ) :
    ∀ p : ℚ, (emaFrom m p l).length = l.length := by
  induction l with
  | nil => intro p; rfl
  | cons x rest ih => intro p; simp [emaFrom, ih]

theorem ema_length (prices : List ℚ) (period : ℕ) (hperiod : 1 ≤ period) :
    (ema prices period).length = prices.length := by
  unfold ema
  by_cases h : prices.length < period
  · rw [if_pos h]
    simp
  · rw [if_neg h]
    simp [emaFrom_length]
    omega

theorem optSub_none_right (x : Option ℚ) : optSub x none = none := by
  cases x <;> rfl

theorem signalRemap_length (sEma : List (Option ℚ)) :
    ∀ (l : List (Option ℚ)) (idx : ℕ), (signalRemap sEma l idx).length = l.length := by
  intro l
  induction l with
  | nil => intro idx; rfl
  | cons x rest ih => intro idx; cases x <;> simp [signalRemap, ih]

theorem macd_macdLine_length (prices : List ℚ) (fast slow sp : ℕ) :
    (macd prices fast slow sp).macdLine.length = prices.length := by
  unfold macd
  simp

theorem macd_signalLine_length (prices : List ℚ) (fast slow sp : ℕ) :
    (macd prices fast slow sp).signalLine.length = prices.length := by
  unfold macd
  simp [signalRemap_length]

theorem macd_histogram_length (prices : List ℚ) (fast slow sp : ℕ) :
    (macd prices fast slow sp).histogram.length = prices.length := by
  unfold macd
  simp

theorem rsiSteps_length (period : ℕ) :
    ∀ (L : List (ℚ × ℚ)) (ag al : ℚ), (rsiSteps period ag al L).length = L.length := by
  intro L
  induction L with
  | nil => intro ag al; rfl
  | cons p rest ih =>
    intro ag al
    rcases p with ⟨g, lo⟩
    simp [rsiSteps, ih]

theorem rsiCore_length (prices : List ℚ) (period : ℕ) (h : period + 1 ≤ prices.length) :
    (rsiCore prices period).length = prices.length - 1 - period := by
  unfold rsiCore
  have hzlen : ((rsiGains prices).zip (rsiLosses prices)).length = prices.length - 1 := by
    simp only [List.length_zip, rsiGains, rsiLosses, List.length_map, diffs_length]
    omega
  cases hdrop : ((rsiGains prices).zip (rsiLosses prices)).drop period with
  | nil =>
    have hle := List.drop_eq_nil_iff.mp hdrop
    rw [hzlen] at hle
    simp only [List.length_nil]
    omega
  | cons p rest =>
    have hdl : (((rsiGains prices).zip (rsiLosses prices)).drop period).length =
        prices.length - 1 - period := by
      simp [List.length_drop, hzlen]
    rw [hdrop] at hdl
    simp only [List.length_cons, rsiSteps_length] at hdl ⊢
    omega

theorem rsi_values_length (prices : List ℚ) (period : ℕ)
    (h : period + 1 ≤ prices.length) :
    (rsi prices period).values.length = prices.length := by
  have hns : ¬ prices.length < period + 1 := by omega
  have hv : (rsi prices period).values = rsiValues prices period := by
    unfold rsi
    rw [if_neg hns]
  rw [hv]
  unfold rsiValues
  simp [rsiCore_length prices period h]
  omega

theorem trueRangeList_length (candles : List Candle) :
    (trueRangeList candles).length = candles.length - 1 := by
  simp only [trueRangeList, List.length_map, List.length_zip, List.length_drop]
  omega

theorem plusDmList_length (candles : List Candle) :
    (plusDmList candles).length = candles.length - 1 := by
  simp only [plusDmList, List.length_map, List.length_zip, List.length_drop]
  omega

theorem minusDmList_length (candles : List Candle) :
    (minusDmList candles).length = candles.length - 1 := by
  simp only [minusDmList, List.length_map, List.length_zip, List.length_drop]
  omega

theorem adx_lengths (candles : List Candle) (period : ℕ)
    (h : period * 2 ≤ candles.length) :
    (adx candles period).values.length = candles.length - 1 ∧
    (adx candles period).plusDI.length = candles.length - 1 ∧
    (adx candles period).minusDI.length = candles.length - 1 := by
  unfold adx
  rw [if_neg (not_lt.mpr h)]
  refine ⟨?_, ?_, ?_⟩ <;>
    simp [wilder_smooth_length, trueRangeList_length]

theorem atr_values_length (candles : List Candle) (period : ℕ)
    (h : period + 1 ≤ candles.length) :
    (atr candles period).values.length = candles.length - 1 := by
  unfold atr
  rw [if_neg (not_lt.mpr h)]
  simp [wilder_smooth_length, trueRangeList_length]

theorem take_map_range_none (f : ℕ → Option ℚ) (n k : ℕ) (hk : k ≤ n)
    (hf : ∀ i, i < k → f i = none) :
    ((List.range n).map f).take k = List.replicate k none := by
  rw [← List.map_take, List.take_range, min_eq_left hk]
  refine List.eq_replicate_iff.mpr ⟨by simp, ?_⟩
  intro b hb
  rcases List.mem_map.mp hb with ⟨i, hi, rfl⟩
  exact hf i (List.mem_range.mp hi)

theorem getD_replicate_none (k i : ℕ) :
    (List.replicate k (none : Option ℚ)).getD i none = none := by
  rw [List.getD_eq_getElem?_getD, List.getElem?_replicate]
  split <;> rfl

theorem ema_getD_none (prices : List ℚ) (period i : ℕ) (h1 : i < period - 1)
    (h2 : period ≤ prices.length) :
    (ema prices period).getD i none = none := by
  unfold ema
  rw [if_neg (not_lt.mpr h2), List.getD_append _ _ _ _ (by simpa using h1)]
  exact getD_replicate_none _ _

theorem rsi_values_take (prices : List ℚ) (period : ℕ)
    (h : period + 1 ≤ prices.length) :
    (rsi prices period).values.take (period + 1) =
      List.replicate (period + 1) none := by
  have hns : ¬ prices.length < period + 1 := by omega
  have hv : (rsi prices period).values = rsiValues prices period := by
    unfold rsi
    rw [if_neg hns]
  rw [hv]
  unfold rsiValues
  rw [List.take_succ_cons, List.take_append_of_le_length (by simp),
    List.take_replicate, min_self, List.replicate_succ]

theorem macd_macdLine_take (prices : List ℚ) (h : 26 ≤ prices.length) :
    (macd prices 12 26 9).macdLine.take 25 = List.replicate 25 none := by
  show ((List.range prices.length).map (fun i =>
    optSub ((ema prices 12).getD i none) ((ema prices 26).getD i none))).take 25 = _
  apply take_map_range_none _ _ _ (by omega)
  intro i hi
  rw [ema_getD_none prices 26 i (by omega) h]
  exact optSub_none_right _

/-- C1 counterexample.  On a pipeline-accepted input of 30 candles, the ADX
value sequence (likewise `plusDI`/`minusDI`) and the ATR value sequence have
length 29, not 30: they are aligned with the per-bar changes, one per index
`1 .. len-1`, and contain no undefined markers at all, so
`len(output) == len(input)` fails for them. -/
theorem indicator_alignment_counterexample :
    (List.replicate 30 (Candle.mk 10 9 9 100)).length = 30 ∧
    (adx (List.replicate 30 (Candle.mk 10 9 9 100)) 14).values.length = 29 ∧
    (adx (List.replicate 30 (Candle.mk 10 9 9 100)) 14).plusDI.length = 29 ∧
    (atr (List.replicate 30 (Candle.mk 10 9 9 100)) 14).values.length = 29 := by
  have hadx := adx_lengths (List.replicate 30 (Candle.mk 10 9 9 100)) 14 (by simp)
  have hatr := atr_values_length (List.replicate 30 (Candle.mk 10 9 9 100)) 14 (by simp)
  refine ⟨by simp, ?_, ?_, ?_⟩
  · simpa using hadx.1
  · simpa using hadx.2.1
  · simpa using hatr

/-- C1 amended: for every pipeline-accepted candle input (length ≥ 30), the
RSI value sequence, the MACD line/signal/histogram, and the five Bollinger
sequences all have length equal to the input length, with the positions
before the warm-up period holding the explicit undefined marker (shown for
the RSI prefix of length `period + 1 = 15`, the MACD-line prefix of length
`slow - 1 = 25`, and the Bollinger prefix of length `period - 1 = 19`); the
ADX value/plusDI/minusDI sequences and the ATR value sequence instead have
length `len(input) - 1` and every position defined (no undefined markers, by
construction of their types). -/
theorem indicator_alignment (sqrtF : ℚ → ℚ) (candles : List Candle)
    (h : 30 ≤ candles.length) :
    ((rsi (candles.map Candle.close) 14).values.length = candles.length ∧
      (rsi (candles.map Candle.close) 14).values.take 15 = List.replicate 15 none) ∧
    ((macd (candles.map Candle.close) 12 26 9).macdLine.length = candles.length ∧
      (macd (candles.map Candle.close) 12 26 9).signalLine.length = candles.length ∧
      (macd (candles.map Candle.close) 12 26 9).histogram.length = candles.length ∧
      (macd (candles.map Candle.close) 12 26 9).macdLine.take 25 =
        List.replicate 25 none) ∧
    ((bollinger_bands sqrtF (candles.map Candle.close) 20 2).upper.length =
        candles.length ∧
      (bollinger_bands sqrtF (candles.map Candle.close) 20 2).middle.length =
        candles.length ∧
      (bollinger_bands sqrtF (candles.map Candle.close) 20 2).lower.length =
        candles.length ∧
      (bollinger_bands sqrtF (candles.map Candle.close) 20 2).bandwidth.length =
        candles.length ∧
      (bollinger_bands sqrtF (candles.map Candle.close) 20 2).percentB.length =
        candles.length ∧
      (bollinger_bands sqrtF (candles.map Candle.close) 20 2).percentB.take 19 =
        List.replicate 19 none) ∧
    ((adx candles 14).values.length = candles.length - 1 ∧
      (adx candles 14).plusDI.length = candles.length - 1 ∧
      (adx candles 14).minusDI.length = candles.length - 1) ∧
    (atr candles 14).values.length = candles.length - 1 := by
  have hlen : (candles.map Candle.close).length = candles.length := List.length_map _ _
  refine ⟨⟨?_, ?_⟩, ⟨?_, ?_, ?_, ?_⟩, ⟨?_, ?_, ?_, ?_, ?_, ?_⟩, ?_, ?_⟩
  · rw [rsi_values_length _ _ (by omega), hlen]
  · exact rsi_values_take _ _ (by omega)
  · rw [macd_macdLine_length, hlen]
  · rw [macd_signalLine_length, hlen]
  · rw [macd_histogram_length, hlen]
  · exact macd_macdLine_take _ (by omega)
  · show (bollUpperList sqrtF (candles.map Candle.close) 20 2).length = _
    simp [bollUpperList]
  · show (sma (candles.map Candle.close) 20).length = _
    simp [sma_length]
  · show (bollLowerList sqrtF (candles.map Candle.close) 20 2).length = _
    simp [bollLowerList]
  · show (bollBandwidthList sqrtF (candles.map Candle.close) 20 2).length = _
    simp [bollBandwidthList]
  · show (bollPercentBList sqrtF (candles.map Candle.close) 20 2).length = _
    simp [bollPercentBList]
  · show (bollPercentBList sqrtF (candles.map Candle.close) 20 2).take 19 = _
    unfold bollPercentBList
    apply take_map_range_none _ _ _ (by omega)
    intro i hi
    rw [if_pos (by omega)]
  · exact adx_lengths candles 14 (by omega)
  · exact atr_values_length candles 14 (by omega)

/-- Witness for C1 at 30 identical candles. -/
theorem indicator_alignment_witness :
    ((rsi ((List.replicate 30 (Candle.mk 10 9 9 100)).map Candle.close) 14).values.length =
        (List.replicate 30 (Candle.mk 10 9 9 100)).length ∧
      (rsi ((List.replicate 30 (Candle.mk 10 9 9 100)).map Candle.close) 14).values.take 15 =
        List.replicate 15 none) ∧
    ((macd ((List.replicate 30 (Candle.mk 10 9 9 100)).map Candle.close) 12 26 9).macdLine.length =
        (List.replicate 30 (Candle.mk 10 9 9 100)).length ∧
      (macd ((List.replicate 30 (Candle.mk 10 9 9 100)).map Candle.close) 12 26
          9).signalLine.length =
        (List.replicate 30 (Candle.mk 10 9 9 100)).length ∧
      (macd ((List.replicate 30 (Candle.mk 10 9 9 100)).map Candle.close) 12 26
          9).histogram.length =
        (List.replicate 30 (Candle.mk 10 9 9 100)).length ∧
      (macd ((List.replicate 30 (Candle.mk 10 9 9 100)).map Candle.close) 12 26
          9).macdLine.take 25 =
        List.replicate 25 none) ∧
    ((bollinger_bands id ((List.replicate 30 (Candle.mk 10 9 9 100)).map Candle.close) 20
          2).upper.length =
        (List.replicate 30 (Candle.mk 10 9 9 100)).length ∧
      (bollinger_bands id ((List.replicate 30 (Candle.mk 10 9 9 100)).map Candle.close) 20
          2).middle.length =
        (List.replicate 30 (Candle.mk 10 9 9 100)).length ∧
      (bollinger_bands id ((List.replicate 30 (Candle.mk 10 9 9 100)).map Candle.close) 20
          2).lower.length =
        (List.replicate 30 (Candle.mk 10 9 9 100)).length ∧
      (bollinger_bands id ((List.replicate 30 (Candle.mk 10 9 9 100)).map Candle.close) 20
          2).bandwidth.length =
        (List.replicate 30 (Candle.mk 10 9 9 100)).length ∧
      (bollinger_bands id ((List.replicate 30 (Candle.mk 10 9 9 100)).map Candle.close) 20
          2).percentB.length =
        (List.replicate 30 (Candle.mk 10 9 9 100)).length ∧
      (bollinger_bands id ((List.replicate 30 (Candle.mk 10 9 9 100)).map Candle.close) 20
          2).percentB.take 19 =
        List.replicate 19 none) ∧
    ((adx (List.replicate 30 (Candle.mk 10 9 9 100)) 14).values.length =
        (List.replicate 30 (Candle.mk 10 9 9 100)).length - 1 ∧
      (adx (List.replicate 30 (Candle.mk 10 9 9 100)) 14).plusDI.length =
        (List.replicate 30 (Candle.mk 10 9 9 100)).length - 1 ∧
      (adx (List.replicate 30 (Candle.mk 10 9 9 100)) 14).minusDI.length =
        (List.replicate 30 (Candle.mk 10 9 9 100)).length - 1) ∧
    (atr (List.replicate 30 (Candle.mk 10 9 9 100)) 14).values.length =
      (List.replicate 30 (Candle.mk 10 9 9 100)).length - 1 :=
  indicator_alignment id (List.replicate 30 (Candle.mk 10 9 9 100)) (by simp)

end TechnicalIndicators
